import Mathlib

/-!
Verification of the camera projection/distortion subsystem of the reaqrovio
repository (src/src/Camera.cpp, src/include/rovio/Camera.hpp).

The C++ code computes with IEEE doubles (and casts pixel coordinates through
32-bit floats); this development idealizes all machine numbers as real
numbers.  Partial machine operations keep Lean's junk-value semantics:
`Real.sqrt` of a negative argument is `0` and division by zero is `0`,
mirroring the fact that the source performs the corresponding operation
unguarded.  Output parameters written through references become `Option`
results (`none` = the C++ function returned `false` and left the output
unwritten); a C++ local that may be read uninitialized becomes an explicit
"junk" argument of the embedding.
-/

noncomputable section

namespace Rovio

/-- Planar point on the normalized camera plane, or a pixel. -/
abbrev V2 : Type := ℝ × ℝ

/-- A 3D bearing vector in camera coordinates. -/
abbrev V3 : Type := ℝ × ℝ × ℝ

/-- A 2x2 real matrix, row major (Eigen::Matrix2d). -/
structure M2 where
  m00 : ℝ
  m01 : ℝ
  m10 : ℝ
  m11 : ℝ

/-- A 2x3 real matrix, row major (Eigen::Matrix<double,2,3>). -/
structure M23 where
  a00 : ℝ
  a01 : ℝ
  a02 : ℝ
  a10 : ℝ
  a11 : ℝ
  a12 : ℝ

/-- The 2x2 identity matrix (Eigen setIdentity). -/
def m2id : M2 := ⟨1, 0, 0, 1⟩

/-- Matrix product of two 2x2 matrices. -/
def m2mul (A B : M2) : M2 :=
  ⟨A.m00 * B.m00 + A.m01 * B.m10, A.m00 * B.m01 + A.m01 * B.m11,
   A.m10 * B.m00 + A.m11 * B.m10, A.m10 * B.m01 + A.m11 * B.m11⟩

/-- Transpose of a 2x2 matrix. -/
def m2T (A : M2) : M2 := ⟨A.m00, A.m10, A.m01, A.m11⟩

/-- Determinant of a 2x2 matrix. -/
def m2det (A : M2) : ℝ := A.m00 * A.m11 - A.m01 * A.m10

/-- Inverse of a 2x2 matrix by the adjugate/determinant formula, exactly what
Eigen's fixed-size `.inverse()` computes; a singular matrix yields junk
entries (division by zero), never an error, as in the source. -/
def m2inv (A : M2) : M2 :=
  ⟨A.m11 / m2det A, -A.m01 / m2det A, -A.m10 / m2det A, A.m00 / m2det A⟩

/-- Matrix-vector product for 2x2 matrices. -/
def m2mulV (A : M2) (v : V2) : V2 :=
  (A.m00 * v.1 + A.m01 * v.2, A.m10 * v.1 + A.m11 * v.2)

/-- Product of a 2x2 matrix with a 2x3 matrix. -/
def m2mulM23 (A : M2) (B : M23) : M23 :=
  ⟨A.m00 * B.a00 + A.m01 * B.a10, A.m00 * B.a01 + A.m01 * B.a11, A.m00 * B.a02 + A.m01 * B.a12,
   A.m10 * B.a00 + A.m11 * B.a10, A.m10 * B.a01 + A.m11 * B.a11, A.m10 * B.a02 + A.m11 * B.a12⟩

/-- Componentwise sum of planar points. -/
def add2 (a b : V2) : V2 := (a.1 + b.1, a.2 + b.2)

/-- Componentwise difference of planar points. -/
def sub2 (a b : V2) : V2 := (a.1 - b.1, a.2 - b.2)

/-- Dot product of planar points (Eigen `.dot`). -/
def dot2 (a b : V2) : ℝ := a.1 * b.1 + a.2 * b.2

/-- Euclidean norm of a 3-vector (Eigen `.norm()`). -/
def norm3 (v : V3) : ℝ := Real.sqrt (v.1 * v.1 + v.2.1 * v.2.1 + v.2.2 * v.2.2)

/-- Eigen `.normalized()`: divide by the norm (junk on the zero vector,
where IEEE would produce NaN). -/
def normalize3 (v : V3) : V3 :=
  (v.1 / norm3 v, v.2.1 / norm3 v, v.2.2 / norm3 v)

/-- Distortion model tag of the camera (enum ModelType in Camera.hpp). -/
inductive ModelType where
  | REFRAC
  | RADTAN
  | EQUIDIST
  | EQUIREFRAC
  | DS
deriving DecidableEq

/-- The camera parameter set: the entries of the intrinsic matrix K_ that the
code reads, the distortion coefficients, the refractive index, the valid
radius and the model tag (class Camera in Camera.hpp; the coefficients
k5_, k6_, s1_..s4_ are declared in the header but never read by any
projection/distortion routine, so they are omitted). -/
structure Camera where
  K00_ : ℝ
  K01_ : ℝ
  K02_ : ℝ
  K10_ : ℝ
  K11_ : ℝ
  K12_ : ℝ
  k1_ : ℝ
  k2_ : ℝ
  k3_ : ℝ
  k4_ : ℝ
  p1_ : ℝ
  p2_ : ℝ
  refrac_ind_ : ℝ
  valid_radius_ : ℝ
  type_ : ModelType

/-- The top-left 2x2 block of the intrinsic matrix, `K_.block<2,2>(0,0)`. -/
def kBlock (cam : Camera) : M2 := ⟨cam.K00_, cam.K01_, cam.K10_, cam.K11_⟩

/-- Camera::distortRadtan (radial-tangential model, no Jacobian). -/
def distortRadtan (cam : Camera) (p : V2) : V2 :=
  let x2 := p.1 * p.1
  let y2 := p.2 * p.2
  let xy := p.1 * p.2
  let r2 := x2 + y2
  let kr := 1 + ((cam.k3_ * r2 + cam.k2_) * r2 + cam.k1_) * r2
  (p.1 * kr + cam.p1_ * 2 * xy + cam.p2_ * (r2 + 2 * x2),
   p.2 * kr + cam.p1_ * (r2 + 2 * y2) + cam.p2_ * 2 * xy)

/-- Camera::distortRadtan with Jacobian. -/
def distortRadtanJ (cam : Camera) (p : V2) : V2 × M2 :=
  let x2 := p.1 * p.1
  let y2 := p.2 * p.2
  let xy := p.1 * p.2
  let r2 := x2 + y2
  let kr := 1 + ((cam.k3_ * r2 + cam.k2_) * r2 + cam.k1_) * r2
  let j01 := 2 * cam.k1_ * xy + 4 * cam.k2_ * xy * r2 + 6 * cam.k3_ * xy * r2 * r2
      + 2 * cam.p1_ * p.1 + 2 * cam.p2_ * p.2
  ((p.1 * kr + cam.p1_ * 2 * xy + cam.p2_ * (r2 + 2 * x2),
    p.2 * kr + cam.p1_ * (r2 + 2 * y2) + cam.p2_ * 2 * xy),
   ⟨kr + 2 * cam.k1_ * x2 + 4 * cam.k2_ * x2 * r2 + 6 * cam.k3_ * x2 * r2 * r2
      + 2 * cam.p1_ * p.2 + 6 * cam.p2_ * p.1,
    j01, j01,
    kr + 2 * cam.k1_ * y2 + 4 * cam.k2_ * y2 * r2 + 6 * cam.k3_ * y2 * r2 * r2
      + 6 * cam.p1_ * p.2 + 2 * cam.p2_ * p.1⟩)

/-- Camera::distortRefractive (stored refractive index, no Jacobian).
The scale n/sqrt(1+r^2-n^2 r^2) is computed unguarded: no branch checks the
sign of the radicand, exactly as in the source. -/
def distortRefractive (cam : Camera) (p : V2) : V2 :=
  let x2 := p.1 * p.1
  let y2 := p.2 * p.2
  let r2 := x2 + y2
  let n := cam.refrac_ind_
  let n2 := n * n
  let m_distort := n / Real.sqrt (1 + r2 - n2 * r2)
  (p.1 * m_distort, p.2 * m_distort)

/-- Camera::distortRefractive overload taking an explicit refractive index. -/
def distortRefractiveN (cam : Camera) (p : V2) (refrac_index : ℝ) : V2 :=
  let x2 := p.1 * p.1
  let y2 := p.2 * p.2
  let r2 := x2 + y2
  let n := refrac_index
  let n2 := n * n
  let m_distort := n / Real.sqrt (1 + r2 - n2 * r2)
  (p.1 * m_distort, p.2 * m_distort)

/-- Camera::distortRefractive with Jacobian (stored index).  The source
writes the entries with `pow(g,-2.0)`, `pow(g,-1.5)`, `pow(g,1.5)`; on the
meaningful domain g >= 0 these equal 1/(g*g), 1/(g*sqrt g) and g*sqrt g,
which is how they are written here. -/
def distortRefractiveJ (cam : Camera) (p : V2) : V2 × M2 :=
  let x2 := p.1 * p.1
  let y2 := p.2 * p.2
  let x_y := p.1 * p.2
  let r2 := x2 + y2
  let n := cam.refrac_ind_
  let n2 := n * n
  let m_distort := n / Real.sqrt (1 + r2 - n2 * r2)
  let g := 1 + r2 - n2 * r2
  ((p.1 * m_distort, p.2 * m_distort),
   ⟨n * (1 / (g * g)) * (Real.sqrt g * x2 * (n2 - 1) + g * Real.sqrt g),
    n * (1 / (g * Real.sqrt g)) * x_y * (n2 - 1),
    n * (1 / (g * Real.sqrt g)) * x_y * (n2 - 1),
    n * (1 / (g * g)) * (Real.sqrt g * y2 * (n2 - 1) + g * Real.sqrt g)⟩)

/-- Camera::distortRefractive with explicit index and Jacobian. -/
def distortRefractiveNJ (cam : Camera) (p : V2) (refrac_index : ℝ) : V2 × M2 :=
  let x2 := p.1 * p.1
  let y2 := p.2 * p.2
  let x_y := p.1 * p.2
  let r2 := x2 + y2
  let n := refrac_index
  let n2 := n * n
  let m_distort := n / Real.sqrt (1 + r2 - n2 * r2)
  let g := 1 + r2 - n2 * r2
  ((p.1 * m_distort, p.2 * m_distort),
   ⟨n * (1 / (g * g)) * (Real.sqrt g * x2 * (n2 - 1) + g * Real.sqrt g),
    n * (1 / (g * Real.sqrt g)) * x_y * (n2 - 1),
    n * (1 / (g * Real.sqrt g)) * x_y * (n2 - 1),
    n * (1 / (g * g)) * (Real.sqrt g * y2 * (n2 - 1) + g * Real.sqrt g)⟩)

/-- Camera::distortEquidist (no Jacobian): degenerate passthrough below
radius 1e-8, otherwise the equidistant (fisheye) polynomial in theta. -/
def distortEquidist (cam : Camera) (p : V2) : V2 :=
  let x2 := p.1 * p.1
  let y2 := p.2 * p.2
  let r := Real.sqrt (x2 + y2)
  if r < 1e-8 then p
  else
    let th := Real.arctan r
    let th2 := th * th
    let th4 := th2 * th2
    let th6 := th2 * th4
    let th8 := th2 * th6
    let thd := th * (1 + cam.k1_ * th2 + cam.k2_ * th4 + cam.k3_ * th6 + cam.k4_ * th8)
    let s := thd / r
    (p.1 * s, p.2 * s)

/-- Camera::distortEquidist with Jacobian. -/
def distortEquidistJ (cam : Camera) (p : V2) : V2 × M2 :=
  let x2 := p.1 * p.1
  let y2 := p.2 * p.2
  let r := Real.sqrt (x2 + y2)
  if r < 1e-8 then (p, m2id)
  else
    let r_x := 1 / r * p.1
    let r_y := 1 / r * p.2
    let th := Real.arctan r
    let th_r := 1 / (r * r + 1)
    let th2 := th * th
    let th4 := th2 * th2
    let th6 := th2 * th4
    let th8 := th2 * th6
    let thd := th * (1 + cam.k1_ * th2 + cam.k2_ * th4 + cam.k3_ * th6 + cam.k4_ * th8)
    let thd_th := 1 + 3 * cam.k1_ * th2 + 5 * cam.k2_ * th4 + 7 * cam.k3_ * th6 + 9 * cam.k4_ * th8
    let s := thd / r
    let s_r := thd_th * th_r / r - thd / (r * r)
    ((p.1 * s, p.2 * s),
     ⟨s + p.1 * s_r * r_x, p.1 * s_r * r_y, p.2 * s_r * r_x, s + p.2 * s_r * r_y⟩)

/-- Camera::distortDoubleSphere (no Jacobian): degenerate passthrough below
squared radius 1e-16, otherwise the double-sphere scaling. -/
def distortDoubleSphere (cam : Camera) (p : V2) : V2 :=
  let x2 := p.1 * p.1
  let y2 := p.2 * p.2
  if x2 + y2 < 1e-16 then p
  else
    let d1 := Real.sqrt (x2 + y2 + 1)
    let d2 := Real.sqrt (x2 + y2 + (cam.k1_ * d1 + 1) * (cam.k1_ * d1 + 1))
    let scaling := 1 / (cam.k2_ * d2 + (1 - cam.k2_) * (cam.k1_ * d1 + 1))
    (p.1 * scaling, p.2 * scaling)

/-- Camera::distortDoubleSphere with Jacobian. -/
def distortDoubleSphereJ (cam : Camera) (p : V2) : V2 × M2 :=
  let x2 := p.1 * p.1
  let y2 := p.2 * p.2
  if x2 + y2 < 1e-16 then (p, m2id)
  else
    let d1 := Real.sqrt (x2 + y2 + 1)
    let d2 := Real.sqrt (x2 + y2 + (cam.k1_ * d1 + 1) * (cam.k1_ * d1 + 1))
    let s := 1 / (cam.k2_ * d2 + (1 - cam.k2_) * (cam.k1_ * d1 + 1))
    let d1dx := p.1 / d1
    let d1dy := p.2 / d1
    let d2dx := (p.1 + d1dx * cam.k1_ * (d1 * cam.k1_ + 1)) / d2
    let d2dy := (p.2 + d1dy * cam.k1_ * (d1 * cam.k1_ + 1)) / d2
    ((p.1 * s, p.2 * s),
     ⟨-p.1 * (d2dx * cam.k2_ - d1dx * cam.k1_ * (cam.k2_ - 1)) * s * s + s,
      -s * s * p.1 * (d2dy * cam.k2_ - d1dy * cam.k1_ * (cam.k2_ - 1)),
      -s * s * p.2 * (d2dx * cam.k2_ - d1dx * cam.k1_ * (cam.k2_ - 1)),
      -p.2 * (d2dy * cam.k2_ - d1dy * cam.k1_ * (cam.k2_ - 1)) * s * s + s⟩)

/-- Camera::distortEquiRefractive (no Jacobian): refractive stage with the
stored index, then the equidistant stage. -/
def distortEquiRefractive (cam : Camera) (p : V2) : V2 :=
  distortEquidist cam (distortRefractive cam p)

/-- Camera::distortEquiRefractive with combined Jacobian (stored index). -/
def distortEquiRefractiveJ (cam : Camera) (p : V2) : V2 × M2 :=
  let tr := distortRefractiveJ cam p
  let te := distortEquidistJ cam tr.1
  (te.1, m2mul te.2 tr.2)

/-- Camera::distortEquiRefractive overload returning the two stage Jacobians
separately (out, J_equi, J_refrac); uses the stored refractive index. -/
def distortEquiRefractiveJJ (cam : Camera) (p : V2) : V2 × M2 × M2 :=
  let tr := distortRefractiveJ cam p
  let te := distortEquidistJ cam tr.1
  (te.1, te.2, tr.2)

/-- Camera::distortEquiRefractive with explicit refractive index and combined
Jacobian. -/
def distortEquiRefractiveNJ (cam : Camera) (p : V2) (refrac_index : ℝ) : V2 × M2 :=
  let tr := distortRefractiveNJ cam p refrac_index
  let te := distortEquidistJ cam tr.1
  (te.1, m2mul te.2 tr.2)

/-- Camera::distort — model dispatch, no Jacobian.  (The C++ switch has a
default case falling back to RADTAN; the Lean match is exhaustive over the
five tags, so no default arises.) -/
def distort (cam : Camera) (p : V2) : V2 :=
  match cam.type_ with
  | ModelType.RADTAN => distortRadtan cam p
  | ModelType.REFRAC => distortRefractive cam p
  | ModelType.EQUIDIST => distortEquidist cam p
  | ModelType.EQUIREFRAC => distortEquiRefractive cam p
  | ModelType.DS => distortDoubleSphere cam p

/-- Camera::distort with explicit refractive index: only the REFRAC case
forwards the explicit index; EQUIREFRAC falls back to the stored-index
routine (source lines 415-437). -/
def distortN (cam : Camera) (p : V2) (refrac_index : ℝ) : V2 :=
  match cam.type_ with
  | ModelType.RADTAN => distortRadtan cam p
  | ModelType.REFRAC => distortRefractiveN cam p refrac_index
  | ModelType.EQUIDIST => distortEquidist cam p
  | ModelType.EQUIREFRAC => distortEquiRefractive cam p
  | ModelType.DS => distortDoubleSphere cam p

/-- Camera::distort with Jacobian. -/
def distortJ (cam : Camera) (p : V2) : V2 × M2 :=
  match cam.type_ with
  | ModelType.RADTAN => distortRadtanJ cam p
  | ModelType.REFRAC => distortRefractiveJ cam p
  | ModelType.EQUIDIST => distortEquidistJ cam p
  | ModelType.EQUIREFRAC => distortEquiRefractiveJ cam p
  | ModelType.DS => distortDoubleSphereJ cam p

/-- Camera::distort with explicit refractive index and Jacobian: here both
REFRAC and EQUIREFRAC forward the explicit index (source lines 462-484). -/
def distortNJ (cam : Camera) (p : V2) (refrac_index : ℝ) : V2 × M2 :=
  match cam.type_ with
  | ModelType.RADTAN => distortRadtanJ cam p
  | ModelType.REFRAC => distortRefractiveNJ cam p refrac_index
  | ModelType.EQUIDIST => distortEquidistJ cam p
  | ModelType.EQUIREFRAC => distortEquiRefractiveNJ cam p refrac_index
  | ModelType.DS => distortDoubleSphereJ cam p

/-- Pinhole projection of a bearing onto the normalized plane, (x/z, y/z). -/
def proj (v : V3) : V2 := (v.1 / v.2.2, v.2.1 / v.2.2)

/-- Intrinsic scaling of a distorted plane point to a pixel:
(K00*x'+K02, K11*y'+K12). -/
def pixelOf (cam : Camera) (d : V2) : V2 :=
  (cam.K00_ * d.1 + cam.K02_, cam.K11_ * d.2 + cam.K12_)

/-- The 2x3 Jacobian J1 of the pinhole projection w.r.t. the bearing. -/
def projJ (v : V3) : M23 :=
  ⟨1 / v.2.2, 0, -v.1 / (v.2.2 * v.2.2), 0, 1 / v.2.2, -v.2.1 / (v.2.2 * v.2.2)⟩

/-- The diagonal intrinsic Jacobian J3 = diag(K00, K11). -/
def intrinsicJ (cam : Camera) : M2 := ⟨cam.K00_, 0, 0, cam.K11_⟩

/-- Camera::bearingToPixel(vec, c): `none` models `return false` with the
pixel output left unwritten (depth <= 0). -/
def bearingToPixel (cam : Camera) (v : V3) : Option V2 :=
  if v.2.2 ≤ 0 then none
  else some (pixelOf cam (distort cam (proj v)))

/-- Camera::bearingToPixel(vec, c, refrac_index). -/
def bearingToPixelN (cam : Camera) (v : V3) (refrac_index : ℝ) : Option V2 :=
  if v.2.2 ≤ 0 then none
  else some (pixelOf cam (distortN cam (proj v) refrac_index))

/-- Camera::bearingToPixel(vec, c, J). -/
def bearingToPixelJ (cam : Camera) (v : V3) : Option (V2 × M23) :=
  if v.2.2 ≤ 0 then none
  else
    let dJ := distortJ cam (proj v)
    some (pixelOf cam dJ.1, m2mulM23 (m2mul (intrinsicJ cam) dJ.2) (projJ v))

/-- Camera::bearingToPixel(vec, c, J, refrac_index). -/
def bearingToPixelNJ (cam : Camera) (v : V3) (refrac_index : ℝ) : Option (V2 × M23) :=
  if v.2.2 ≤ 0 then none
  else
    let dJ := distortNJ cam (proj v) refrac_index
    some (pixelOf cam dJ.1, m2mulM23 (m2mul (intrinsicJ cam) dJ.2) (projJ v))

/-- Camera::bearingToPixel(vec, c, J, Jdpdn, refrac_index), source lines
518-570.  The local `J_equi` is assigned only inside the
`type_ == EQUIREFRAC` branch; for every other model the final line
`Jdpdn = K_.block<2,2>(0,0) * J_equi * Jdpdn` reads it uninitialized, which
the embedding models by the explicit `junkJequi` argument. -/
def bearingToPixelJdpdn (cam : Camera) (v : V3) (refrac_index : ℝ) (junkJequi : M2) :
    Option (V2 × M23 × V2) :=
  if v.2.2 ≤ 0 then none
  else
    let u := proj v
    let dJ : V2 × M2 × M2 :=
      if cam.type_ = ModelType.EQUIREFRAC then
        let t := distortEquiRefractiveJJ cam u
        (t.1, m2mul t.2.1 t.2.2, t.2.1)
      else
        let t := distortNJ cam u refrac_index
        (t.1, t.2, junkJequi)
    let J := m2mulM23 (m2mul (intrinsicJ cam) dJ.2.1) (projJ v)
    let n := refrac_index
    let r2 := u.1 * u.1 + u.2 * u.2
    let g := 1 + r2 - n * n * r2
    let common_term := (Real.sqrt g * n * n * r2 + g * Real.sqrt g) / (g * g)
    let jd : V2 := (u.1 * common_term, u.2 * common_term)
    some (pixelOf cam dJ.1, J, m2mulV (m2mul (kBlock cam) dJ.2.2) jd)

/-- Seed of the iterative inversion: the intrinsics-normalized pixel. -/
def gnSeed (cam : Camera) (c : V2) : V2 :=
  ((c.1 - cam.K02_) / cam.K00_, (c.2 - cam.K12_) / cam.K11_)

/-- One Gauss-Newton update of Camera::pixelToBearing's loop body: distort
the guess with Jacobian, residual e = y - distorted, normal-equations step
du = (J^T J)^{-1} J^T e, updated guess ybar + du. -/
def gnStep (cam : Camera) (y v : V2) : V2 :=
  let dJ := distortJ cam v
  let J := dJ.2
  let e := sub2 y dJ.1
  add2 v (m2mulV (m2inv (m2mul (m2T J) J)) (m2mulV (m2T J) e))

/-- Squared residual e.dot(e) of the current guess against the target
normalized point, as tested by the loop's stopping condition. -/
def gnResid (cam : Camera) (y v : V2) : ℝ :=
  dot2 (sub2 y (distortJ cam v).1) (sub2 y (distortJ cam v).1)

/-- The convergence tolerance of the iterative inversion (1e-10). -/
def gnTol : ℝ := 1e-10

/-- The bounded Gauss-Newton loop of Camera::pixelToBearing: fuel counts the
remaining iterations (max_iter = 100 at the call site); the residual is
tested after the guess has already been updated, exactly as in the source. -/
def gnLoop (cam : Camera) (y : V2) : ℕ → V2 → Option V2
  | 0, _ => none
  | f + 1, v =>
    if gnResid cam y v ≤ gnTol then some (gnStep cam y v)
    else gnLoop cam y f (gnStep cam y v)

/-- Camera::pixelToBearing(c, vec) — the generic iterative inverse, source
lines 665-701: seed with the intrinsics-normalized pixel, at most 100
Gauss-Newton steps, on success normalize (x, y, 1); `none` models
`return false` with `vec` left unwritten. -/
def pixelToBearing (cam : Camera) (c : V2) : Option V3 :=
  let y := gnSeed cam c
  (gnLoop cam y 100 y).map fun yb => normalize3 (yb.1, yb.2, 1)

/-- Camera::pixelToBearingAnalytical, source lines 703-739.  The pixel is
passed raw (the intrinsics normalization is commented out in the source)
to `cv::fisheye::undistortPoints(y_mat, y_mat, K, D)` with
D = (k1_, k2_, k3_, k4_); that OpenCV routine is outside this repository
and is modelled by the explicit function argument `fisheyeInv`.  Then the
flat-refraction law is inverted in closed form with the stored index and
the result is normalized; the function always returns `true`. -/
def pixelToBearingAnalytical (fisheyeInv : V2 → V2) (cam : Camera) (c : V2) : Option V3 :=
  let y0 : V2 := (c.1, c.2)
  let y := fisheyeInv y0
  let x2 := y.1 * y.1
  let y2 := y.2 * y.2
  let r2 := x2 + y2
  let n := cam.refrac_ind_
  let n2 := n * n
  let m_undistort := Real.sqrt (n2 * r2 + n2 - r2)
  some (normalize3 (y.1 / m_undistort, y.2 / m_undistort, 1))

/-- Modelled from the spec: LWF::NormalVectorElement::setFromVector of the
external bearing-manifold type ("construct from an arbitrary 3-vector by
normalizing"); the manifold point is represented by its 3-vector. -/
def nveSetFromVector (v : V3) : V3 := normalize3 v

/-- Camera::pixelToBearing(c, n) — the model-dispatching inverse, source
lines 742-754: REFRAC and EQUIREFRAC use the analytic path, every other
model the iterative path.  The local `vec` starts uninitialized
(`junkVec`); `n.setFromVector(vec)` is called unconditionally, also when
the iterative path failed and left `vec` unwritten, so the returned
manifold bearing is built from `junkVec` in that case. -/
def pixelToBearingNVE (fisheyeInv : V2 → V2) (cam : Camera) (c : V2) (junkVec : V3) :
    Bool × V3 :=
  let res : Option V3 :=
    if cam.type_ = ModelType.REFRAC ∨ cam.type_ = ModelType.EQUIREFRAC then
      pixelToBearingAnalytical fisheyeInv cam c
    else
      pixelToBearing cam c
  (res.isSome, nveSetFromVector (res.getD junkVec))


/-- The chord metric between two (unit) bearings, used as the formalization
of "angular error": for unit vectors it equals 2*sin(angle/2), so it agrees
with the angle in radians up to a factor between 2/pi and 1; thresholds such
as 1e-5 transfer between the two notions up to that factor. -/
def angErr3 (u v : V3) : ℝ :=
  norm3 (u.1 - v.1, u.2.1 - v.2.1, u.2.2 - v.2.2)

/-- The closed-form partial derivative of the refractive distortion with
respect to the refractive index n, in normalized-plane coordinates — the
quantity the spec requires `Jdpdn` to be built from (identical to the
`common_term` formula of the source, lines 554-565). -/
def jdpdnRefrac (u : V2) (n : ℝ) : V2 :=
  let r2 := u.1 * u.1 + u.2 * u.2
  let g := 1 + r2 - n * n * r2
  let common_term := (Real.sqrt g * n * n * r2 + g * Real.sqrt g) / (g * g)
  (u.1 * common_term, u.2 * common_term)

/-! ### Concrete cameras used in the claim instances -/

/-- The camera produced by the C++ default constructor (Camera::Camera):
identity intrinsics, all distortion coefficients zero, refractive index 1,
RADTAN model, valid radius = the largest finite double. -/
def defaultCamera : Camera :=
  { K00_ := 1, K01_ := 0, K02_ := 0, K10_ := 0, K11_ := 1, K12_ := 0,
    k1_ := 0, k2_ := 0, k3_ := 0, k4_ := 0, p1_ := 0, p2_ := 0,
    refrac_ind_ := 1, valid_radius_ := 2 ^ 1024 - 2 ^ 971,
    type_ := ModelType.RADTAN }

/-- A REFRACTIVE camera with refractive index 1.33 (water) and identity
intrinsics. -/
def camWater : Camera :=
  { defaultCamera with refrac_ind_ := 133 / 100, type_ := ModelType.REFRAC }

/-- An EQUIREFRACTIVE camera with identity intrinsics, zero equidistant
coefficients and stored refractive index 1 (the value the loader actually
leaves in refrac_ind_, since loadRefractive never overwrites it). -/
def camEquiRefrac : Camera :=
  { defaultCamera with type_ := ModelType.EQUIREFRAC }

/-- A DOUBLE_SPHERE camera with identity intrinsics, k1 = 0, k2 = 1; its
distorted points all have norm below 1, so sufficiently eccentric pixels are
outside the image of the forward model. -/
def camDS : Camera :=
  { defaultCamera with type_ := ModelType.DS, k2_ := 1 }

/-- A RADTAN camera with k1 = -1: a coefficient set for which the forward
model collapses the whole r = 1 circle of the normalized plane onto the
principal point, so the forward map is not injective there. -/
def camRadtanK1 : Camera :=
  { defaultCamera with k1_ := -1, valid_radius_ := 2 }

/-- The pinhole camera of the spec's concrete scenario A:
K = diag(500,500) with principal point (320,240), zero distortion, RADTAN. -/
def camPinholeA : Camera :=
  { defaultCamera with K00_ := 500, K11_ := 500, K02_ := 320, K12_ := 240 }

/-! ### Helper lemmas -/


lemma m2mulV_zero (A : M2) : m2mulV A (0, 0) = ((0 : ℝ), (0 : ℝ)) := by
  simp [m2mulV]

lemma add2_zero (v : V2) : add2 v (0, 0) = v := by
  simp [add2]

lemma distortRadtanJ_fst (cam : Camera) (p : V2) :
    (distortRadtanJ cam p).1 = distortRadtan cam p := rfl

lemma distortRefractiveJ_fst (cam : Camera) (p : V2) :
    (distortRefractiveJ cam p).1 = distortRefractive cam p := rfl

lemma distortRefractiveNJ_fst (cam : Camera) (p : V2) (n : ℝ) :
    (distortRefractiveNJ cam p n).1 = distortRefractiveN cam p n := rfl

lemma distortEquidistJ_fst (cam : Camera) (p : V2) :
    (distortEquidistJ cam p).1 = distortEquidist cam p := by
  simp only [distortEquidistJ, distortEquidist]
  split_ifs <;> rfl

lemma distortDoubleSphereJ_fst (cam : Camera) (p : V2) :
    (distortDoubleSphereJ cam p).1 = distortDoubleSphere cam p := by
  simp only [distortDoubleSphereJ, distortDoubleSphere]
  split_ifs <;> rfl

lemma distortEquiRefractiveJ_fst (cam : Camera) (p : V2) :
    (distortEquiRefractiveJ cam p).1 = distortEquiRefractive cam p := by
  simp only [distortEquiRefractiveJ, distortEquiRefractive, distortRefractiveJ_fst]
  exact distortEquidistJ_fst cam _

lemma distortEquiRefractiveJJ_fst (cam : Camera) (p : V2) :
    (distortEquiRefractiveJJ cam p).1 = distortEquiRefractive cam p := by
  simp only [distortEquiRefractiveJJ, distortEquiRefractive, distortRefractiveJ_fst]
  exact distortEquidistJ_fst cam _

lemma distortJ_fst (cam : Camera) (p : V2) : (distortJ cam p).1 = distort cam p := by
  rcases h : cam.type_ <;> simp only [distortJ, distort, h] <;>
    first
    | rfl
    | exact distortEquidistJ_fst cam p
    | exact distortDoubleSphereJ_fst cam p
    | exact distortEquiRefractiveJ_fst cam p

lemma distortN_equirefrac (cam : Camera) (p : V2) (n : ℝ)
    (h : cam.type_ = ModelType.EQUIREFRAC) :
    distortN cam p n = distortEquiRefractive cam p := by
  simp [distortN, h]

lemma distortNJ_fst_of_ne (cam : Camera) (p : V2) (n : ℝ)
    (h : cam.type_ ≠ ModelType.EQUIREFRAC) :
    (distortNJ cam p n).1 = distortN cam p n := by
  rcases ht : cam.type_ <;> simp only [distortNJ, distortN, ht] <;>
    first
    | rfl
    | exact distortEquidistJ_fst cam p
    | exact distortDoubleSphereJ_fst cam p
    | exact absurd ht h

lemma gnLoop_succ (cam : Camera) (y v : V2) (f : ℕ) :
    gnLoop cam y (f + 1) v =
      if gnResid cam y v ≤ gnTol then some (gnStep cam y v)
      else gnLoop cam y f (gnStep cam y v) := rfl

lemma gnLoop_eq_none_iff (cam : Camera) (y : V2) :
    ∀ (f : ℕ) (v : V2), gnLoop cam y f v = none ↔
      ∀ k < f, gnTol < gnResid cam y ((gnStep cam y)^[k] v) := by
  intro f
  induction f with
  | zero => intro v; simp [gnLoop]
  | succ f ih =>
    intro v
    rw [gnLoop_succ]
    by_cases h : gnResid cam y v ≤ gnTol
    · rw [if_pos h]
      constructor
      · intro hc; exact absurd hc (by simp)
      · intro hall
        have h0 := hall 0 (Nat.succ_pos f)
        simp only [Function.iterate_zero, id_eq] at h0
        exact absurd h (not_le.mpr h0)
    · rw [if_neg h, ih]
      constructor
      · intro hall k hk
        cases k with
        | zero =>
          simpa only [Function.iterate_zero, id_eq] using not_le.mp h
        | succ k =>
          rw [Function.iterate_succ_apply]
          exact hall k (by omega)
      · intro hall k hk
        have hx := hall (k + 1) (by omega)
        rwa [Function.iterate_succ_apply] at hx

lemma gnLoop_eq_some (cam : Camera) (y : V2) :
    ∀ (f : ℕ) (v : V2) (k : ℕ), k < f →
      (∀ j < k, gnTol < gnResid cam y ((gnStep cam y)^[j] v)) →
      gnResid cam y ((gnStep cam y)^[k] v) ≤ gnTol →
      gnLoop cam y f v = some ((gnStep cam y)^[k + 1] v) := by
  intro f
  induction f with
  | zero => intro v k hk; omega
  | succ f ih =>
    intro v k hk hmin hconv
    cases k with
    | zero =>
      rw [gnLoop_succ,
        if_pos (by simpa only [Function.iterate_zero, id_eq] using hconv)]
      rw [Function.iterate_one]
    | succ k =>
      have h0 : gnTol < gnResid cam y v := by
        simpa only [Function.iterate_zero, id_eq] using hmin 0 (Nat.succ_pos k)
      rw [gnLoop_succ, if_neg (not_le.mpr h0)]
      have hrec := ih (gnStep cam y v) k (by omega)
        (fun j hj => by
          have hx := hmin (j + 1) (by omega)
          rwa [Function.iterate_succ_apply] at hx)
        (by rw [← Function.iterate_succ_apply]; exact hconv)
      rw [hrec, ← Function.iterate_succ_apply]

lemma gnLoop_congr (c1 c2 : Camera) (y : V2)
    (hd : ∀ v, distortJ c1 v = distortJ c2 v) :
    ∀ (f : ℕ) (v : V2), gnLoop c1 y f v = gnLoop c2 y f v := by
  intro f
  induction f with
  | zero => intro v; rfl
  | succ f ih =>
    intro v
    have hres : gnResid c1 y v = gnResid c2 y v := by
      simp only [gnResid, hd]
    have hstep : gnStep c1 y v = gnStep c2 y v := by
      simp only [gnStep, hd]
    rw [gnLoop_succ, gnLoop_succ, hres, hstep, ih]


lemma refrac_ne_equirefrac : (ModelType.REFRAC = ModelType.EQUIREFRAC) = False := by
  simp

lemma ds_not_refrac_family :
    (ModelType.DS = ModelType.REFRAC ∨ ModelType.DS = ModelType.EQUIREFRAC) = False := by
  simp

lemma distortRadtan_zero (cam : Camera) (q : V2)
    (hk1 : cam.k1_ = 0) (hk2 : cam.k2_ = 0) (hk3 : cam.k3_ = 0)
    (hp1 : cam.p1_ = 0) (hp2 : cam.p2_ = 0) :
    distortRadtan cam q = q := by
  simp only [distortRadtan, hk1, hk2, hk3, hp1, hp2]
  norm_num

lemma distortRadtanJ_zero (cam : Camera) (q : V2)
    (hk1 : cam.k1_ = 0) (hk2 : cam.k2_ = 0) (hk3 : cam.k3_ = 0)
    (hp1 : cam.p1_ = 0) (hp2 : cam.p2_ = 0) :
    distortRadtanJ cam q = (q, m2id) := by
  simp only [distortRadtanJ, hk1, hk2, hk3, hp1, hp2, m2id]
  norm_num

lemma distortEquidist_axis (cam : Camera) (a : ℝ) (ha : 0 < a) (ha8 : ¬ a < 1e-8)
    (hk1 : cam.k1_ = 0) (hk2 : cam.k2_ = 0) (hk3 : cam.k3_ = 0) (hk4 : cam.k4_ = 0) :
    distortEquidist cam (a, 0) = (Real.arctan a, 0) := by
  simp only [distortEquidist]
  rw [show a * a + 0 * 0 = a * a by ring, Real.sqrt_mul_self ha.le, if_neg ha8,
    hk1, hk2, hk3, hk4]
  have h1 : a * (Real.arctan a *
      (1 + 0 * (Real.arctan a * Real.arctan a)
        + 0 * (Real.arctan a * Real.arctan a * (Real.arctan a * Real.arctan a))
        + 0 * (Real.arctan a * Real.arctan a *
            (Real.arctan a * Real.arctan a * (Real.arctan a * Real.arctan a)))
        + 0 * (Real.arctan a * Real.arctan a *
            (Real.arctan a * Real.arctan a *
              (Real.arctan a * Real.arctan a * (Real.arctan a * Real.arctan a))))) / a)
      = Real.arctan a := by
    field_simp
  rw [h1]
  norm_num

lemma normalize3_proj (b : V3) (hz : 0 < b.2.2) :
    normalize3 ((proj b).1, (proj b).2, 1) = normalize3 b := by
  have hz' : b.2.2 ≠ 0 := ne_of_gt hz
  have hsum : (0 : ℝ) ≤ b.1 * b.1 + b.2.1 * b.2.1 + b.2.2 * b.2.2 := by
    nlinarith [sq_nonneg b.1, sq_nonneg b.2.1, sq_nonneg b.2.2]
  have hS : 0 < Real.sqrt (b.1 * b.1 + b.2.1 * b.2.1 + b.2.2 * b.2.2) := by
    apply Real.sqrt_pos.mpr
    nlinarith [sq_nonneg b.1, sq_nonneg b.2.1]
  have hS' : Real.sqrt (b.1 * b.1 + b.2.1 * b.2.1 + b.2.2 * b.2.2) ≠ 0 := ne_of_gt hS
  simp only [normalize3, norm3, proj]
  have hN : Real.sqrt (b.1 / b.2.2 * (b.1 / b.2.2) + b.2.1 / b.2.2 * (b.2.1 / b.2.2) + 1 * 1)
      = Real.sqrt (b.1 * b.1 + b.2.1 * b.2.1 + b.2.2 * b.2.2) / b.2.2 := by
    rw [show b.1 / b.2.2 * (b.1 / b.2.2) + b.2.1 / b.2.2 * (b.2.1 / b.2.2) + 1 * 1
        = (b.1 * b.1 + b.2.1 * b.2.1 + b.2.2 * b.2.2) / (b.2.2 * b.2.2) by
      field_simp]
    rw [Real.sqrt_div hsum, Real.sqrt_mul_self hz.le]
  rw [hN]
  refine Prod.ext ?_ (Prod.ext ?_ ?_)
  · show b.1 / b.2.2 / (Real.sqrt _ / b.2.2) = b.1 / Real.sqrt _
    rw [div_div_div_eq, mul_comm (b.1) (b.2.2), mul_div_mul_left _ _ hz']
  · show b.2.1 / b.2.2 / (Real.sqrt _ / b.2.2) = b.2.1 / Real.sqrt _
    rw [div_div_div_eq, mul_comm (b.2.1) (b.2.2), mul_div_mul_left _ _ hz']
  · show (1 : ℝ) / (Real.sqrt _ / b.2.2) = b.2.2 / Real.sqrt _
    rw [one_div, inv_div]

/-! ### Claim theorems -/


/-- C10: no forward or inverse operation reads `valid_radius_`: changing only
that field leaves `distort`, `bearingToPixel` and `pixelToBearing` (every
overload) unchanged on every input, so the valid-radius bound is never
enforced inside the projection or inversion paths. -/
theorem c10_valid_radius_never_read (cam : Camera) (r : ℝ) (p c : V2) (n : ℝ)
    (v jv : V3) (jj : M2) (fInv : V2 → V2) :
    distort { cam with valid_radius_ := r } p = distort cam p ∧
    distortN { cam with valid_radius_ := r } p n = distortN cam p n ∧
    distortJ { cam with valid_radius_ := r } p = distortJ cam p ∧
    distortNJ { cam with valid_radius_ := r } p n = distortNJ cam p n ∧
    bearingToPixel { cam with valid_radius_ := r } v = bearingToPixel cam v ∧
    bearingToPixelN { cam with valid_radius_ := r } v n = bearingToPixelN cam v n ∧
    bearingToPixelJ { cam with valid_radius_ := r } v = bearingToPixelJ cam v ∧
    bearingToPixelNJ { cam with valid_radius_ := r } v n = bearingToPixelNJ cam v n ∧
    bearingToPixelJdpdn { cam with valid_radius_ := r } v n jj = bearingToPixelJdpdn cam v n jj ∧
    pixelToBearing { cam with valid_radius_ := r } c = pixelToBearing cam c ∧
    pixelToBearingAnalytical fInv { cam with valid_radius_ := r } c =
      pixelToBearingAnalytical fInv cam c ∧
    pixelToBearingNVE fInv { cam with valid_radius_ := r } c jv =
      pixelToBearingNVE fInv cam c jv := by
  have hdJ : ∀ q, distortJ { cam with valid_radius_ := r } q = distortJ cam q := by
    intro q
    rcases h : cam.type_ <;>
      simp only [distortJ, show ({ cam with valid_radius_ := r } : Camera).type_ =
        cam.type_ from rfl, h] <;> rfl
  have hpix : pixelToBearing { cam with valid_radius_ := r } c = pixelToBearing cam c := by
    simp only [pixelToBearing]
    rw [show gnSeed { cam with valid_radius_ := r } c = gnSeed cam c from rfl,
      gnLoop_congr _ cam _ hdJ]
  have hnve : pixelToBearingNVE fInv { cam with valid_radius_ := r } c jv =
      pixelToBearingNVE fInv cam c jv := by
    simp only [pixelToBearingNVE, hpix]
    rfl
  exact ⟨rfl, rfl, rfl, rfl, rfl, rfl, rfl, rfl, rfl, hpix, rfl, hnve⟩

/-- C9: below the degeneracy threshold (r < 1e-8 for distortEquidist,
r^2 < 1e-16 for distortDoubleSphere) the distortion returns the input
unchanged and the Jacobian-returning overloads return the identity Jacobian;
all outputs are plain real numbers, so no NaN/Inf division-by-zero artifact
arises. -/
theorem c9_degenerate_radius_identity (cam : Camera) (p : V2) :
    (Real.sqrt (p.1 * p.1 + p.2 * p.2) < 1e-8 →
      distortEquidist cam p = p ∧ distortEquidistJ cam p = (p, m2id)) ∧
    (p.1 * p.1 + p.2 * p.2 < 1e-16 →
      distortDoubleSphere cam p = p ∧ distortDoubleSphereJ cam p = (p, m2id)) := by
  constructor
  · intro h
    constructor
    · simp only [distortEquidist]; rw [if_pos h]
    · simp only [distortEquidistJ]; rw [if_pos h]
  · intro h
    constructor
    · simp only [distortDoubleSphere]; rw [if_pos h]
    · simp only [distortDoubleSphereJ]; rw [if_pos h]

/-- Witness for C9 at the principal point (0,0). -/
theorem c9_degenerate_radius_identity_witness :
    (Real.sqrt ((0 : ℝ) * 0 + (0 : ℝ) * 0) < 1e-8 ∧
      ((0 : ℝ) * 0 + (0 : ℝ) * 0 : ℝ) < 1e-16) ∧
    (distortEquidist defaultCamera (0, 0) = (0, 0) ∧
      distortEquidistJ defaultCamera (0, 0) = ((0, 0), m2id)) ∧
    (distortDoubleSphere defaultCamera (0, 0) = (0, 0) ∧
      distortDoubleSphereJ defaultCamera (0, 0) = ((0, 0), m2id)) :=
  ⟨⟨by norm_num [Real.sqrt_zero], by norm_num⟩,
   (c9_degenerate_radius_identity defaultCamera (0, 0)).1 (by norm_num [Real.sqrt_zero]),
   (c9_degenerate_radius_identity defaultCamera (0, 0)).2 (by norm_num)⟩

/-- C5: the analytic inverse `pixelToBearingAnalytical` returns success for
every pixel (it is loop-free by definition and its result is always `some`),
and the model-dispatching inverse takes the analytic path exactly when the
active model is REFRAC or EQUIREFRAC, and the generic iterative path for all
other models.  `fisheyeInv` stands for the external OpenCV
`cv::fisheye::undistortPoints` call and is arbitrary here. -/
theorem c5_analytic_total_and_dispatch (fInv : V2 → V2) (cam : Camera) (c : V2)
    (jv : V3) :
    (pixelToBearingAnalytical fInv cam c).isSome = true ∧
    pixelToBearingNVE fInv cam c jv =
      (if cam.type_ = ModelType.REFRAC ∨ cam.type_ = ModelType.EQUIREFRAC then
        (true, nveSetFromVector ((pixelToBearingAnalytical fInv cam c).getD jv))
      else
        ((pixelToBearing cam c).isSome,
          nveSetFromVector ((pixelToBearing cam c).getD jv))) := by
  refine ⟨rfl, ?_⟩
  simp only [pixelToBearingNVE]
  split_ifs with h
  · rfl
  · rfl

/-- C3: the REFRACTIVE forward distortion has no guard on the refraction
domain: at refractive index 1.33 and normalized point (2,0) the radicand
1+r^2-n^2 r^2 is negative, yet `distortRefractive` still computes
n/sqrt(1+r^2-n^2 r^2) and returns a value (junk, (0,0) in the real-number
idealization of sqrt of a negative argument; NaN in IEEE doubles) instead of
detecting the condition and reporting failure — its type has no failure
channel at all. -/
theorem c3_refractive_domain_unguarded :
    (1 + ((2 : ℝ) * 2 + 0 * 0) - (133 / 100 * (133 / 100)) * ((2 : ℝ) * 2 + 0 * 0) < 0) ∧
    distortRefractive camWater ((2 : ℝ), (0 : ℝ)) = ((0 : ℝ), (0 : ℝ)) := by
  constructor
  · norm_num
  · simp only [distortRefractive, camWater, defaultCamera]
    norm_num
    exact Real.sqrt_eq_zero'.mpr (by norm_num)

/-- C2: every `bearingToPixel` overload returns failure (no pixel written)
exactly when the bearing's third component is ≤ 0; for positive depth it
returns success and the pixel (K00*x'+K02, K11*y'+K12) built from the
distorted normalized-plane point of (x/z, y/z). -/
theorem c2_bearing_depth_gate (cam : Camera) (v : V3) (n : ℝ) (jj : M2) :
    (v.2.2 ≤ 0 →
      bearingToPixel cam v = none ∧ bearingToPixelN cam v n = none ∧
      bearingToPixelJ cam v = none ∧ bearingToPixelNJ cam v n = none ∧
      bearingToPixelJdpdn cam v n jj = none) ∧
    (0 < v.2.2 →
      bearingToPixel cam v = some (pixelOf cam (distort cam (proj v))) ∧
      bearingToPixelN cam v n = some (pixelOf cam (distortN cam (proj v) n)) ∧
      (∃ J, bearingToPixelJ cam v = some (pixelOf cam (distort cam (proj v)), J)) ∧
      (∃ J, bearingToPixelNJ cam v n =
        some (pixelOf cam ((distortNJ cam (proj v) n).1), J)) ∧
      (∃ J jd, bearingToPixelJdpdn cam v n jj =
        some (pixelOf cam (distortN cam (proj v) n), J, jd))) := by
  constructor
  · intro h
    refine ⟨?_, ?_, ?_, ?_, ?_⟩ <;>
      simp only [bearingToPixel, bearingToPixelN, bearingToPixelJ, bearingToPixelNJ,
        bearingToPixelJdpdn, if_pos h]
  · intro h
    have h' : ¬ v.2.2 ≤ 0 := not_le.mpr h
    refine ⟨?_, ?_, ?_, ?_, ?_⟩
    · simp only [bearingToPixel, if_neg h']
    · simp only [bearingToPixelN, if_neg h']
    · exact ⟨_, by
        simp only [bearingToPixelJ, if_neg h', distortJ_fst]
        rfl⟩
    · exact ⟨_, by
        simp only [bearingToPixelNJ, if_neg h']
        rfl⟩
    · by_cases ht : cam.type_ = ModelType.EQUIREFRAC
      · exact ⟨_, _, by
          simp only [bearingToPixelJdpdn, if_neg h', if_pos ht,
            distortEquiRefractiveJJ_fst, distortN_equirefrac cam _ n ht]
          rfl⟩
      · exact ⟨_, _, by
          simp only [bearingToPixelJdpdn, if_neg h', if_neg ht,
            distortNJ_fst_of_ne cam _ n ht]
          rfl⟩

/-- Witness for C2 at the default camera: the optical-axis bearing (0,0,1)
projects successfully, the behind-camera bearing (0,0,-1) is rejected. -/
theorem c2_bearing_depth_gate_witness :
    ((0 : ℝ) < 1 ∧ bearingToPixel defaultCamera ((0 : ℝ), (0 : ℝ), (1 : ℝ)) =
      some (pixelOf defaultCamera
        (distort defaultCamera (proj ((0 : ℝ), (0 : ℝ), (1 : ℝ)))))) ∧
    ((-1 : ℝ) ≤ 0 ∧ bearingToPixel defaultCamera ((0 : ℝ), (0 : ℝ), (-1 : ℝ)) = none) :=
  ⟨⟨by norm_num,
    ((c2_bearing_depth_gate defaultCamera ((0 : ℝ), (0 : ℝ), (1 : ℝ)) 1 m2id).2
      (by norm_num)).1⟩,
   ⟨by norm_num,
    ((c2_bearing_depth_gate defaultCamera ((0 : ℝ), (0 : ℝ), (-1 : ℝ)) 1 m2id).1
      (by norm_num)).1⟩⟩


/-- C4: the iterative inverse seeds its guess with the intrinsics-normalized
pixel `gnSeed`, runs at most 100 Gauss-Newton iterations (`gnStep`: distort
the guess with Jacobian, residual against the target point, normal-equations
step du = (J^T J)^{-1} J^T e, update), stops early at the first iteration
whose squared residual `gnResid` is within the tolerance 1e-10 and then
returns the updated guess as normalize3 (x, y, 1), and reports failure
(`none`, not an exception) exactly when all 100 iterations stay above
tolerance. -/
theorem c4_iterative_inverse_contract (cam : Camera) (c : V2) :
    (pixelToBearing cam c = none ↔
      ∀ k < 100, gnTol < gnResid cam (gnSeed cam c)
        ((gnStep cam (gnSeed cam c))^[k] (gnSeed cam c))) ∧
    (∀ k, k < 100 →
      (∀ j < k, gnTol < gnResid cam (gnSeed cam c)
        ((gnStep cam (gnSeed cam c))^[j] (gnSeed cam c))) →
      gnResid cam (gnSeed cam c) ((gnStep cam (gnSeed cam c))^[k] (gnSeed cam c)) ≤ gnTol →
      pixelToBearing cam c =
        some (normalize3
          (((gnStep cam (gnSeed cam c))^[k + 1] (gnSeed cam c)).1,
           ((gnStep cam (gnSeed cam c))^[k + 1] (gnSeed cam c)).2, 1))) := by
  constructor
  · simp only [pixelToBearing, Option.map_eq_none']
    exact gnLoop_eq_none_iff cam (gnSeed cam c) 100 (gnSeed cam c)
  · intro k hk hmin hconv
    simp only [pixelToBearing]
    rw [gnLoop_eq_some cam (gnSeed cam c) 100 (gnSeed cam c) k hk hmin hconv]
    rfl

/-- Witness for C4 at the default camera and the principal-point pixel (0,0):
the very first iteration meets the tolerance, so the inverse succeeds. -/
theorem c4_iterative_inverse_contract_witness :
    ((0 : ℕ) < 100 ∧
      gnResid defaultCamera (gnSeed defaultCamera (0, 0))
        ((gnStep defaultCamera (gnSeed defaultCamera (0, 0)))^[0]
          (gnSeed defaultCamera (0, 0))) ≤ gnTol) ∧
    pixelToBearing defaultCamera (0, 0) =
      some (normalize3
        (((gnStep defaultCamera (gnSeed defaultCamera (0, 0)))^[0 + 1]
            (gnSeed defaultCamera (0, 0))).1,
         ((gnStep defaultCamera (gnSeed defaultCamera (0, 0)))^[0 + 1]
            (gnSeed defaultCamera (0, 0))).2, 1)) := by
  have hres : gnResid defaultCamera (gnSeed defaultCamera (0, 0))
      ((gnStep defaultCamera (gnSeed defaultCamera (0, 0)))^[0]
        (gnSeed defaultCamera (0, 0))) ≤ gnTol := by
    norm_num [gnResid, gnSeed, defaultCamera, distortJ, distortRadtanJ, sub2, dot2, gnTol]
  exact ⟨⟨by norm_num, hres⟩,
    (c4_iterative_inverse_contract defaultCamera (0, 0)).2 0 (by norm_num)
      (fun j hj => absurd hj (Nat.not_lt_zero j)) hres⟩

/-- C7 (code bug): in the Jdpdn-returning bearingToPixel overload the local
J_equi is assigned only inside the `type_ == EQUIREFRAC` branch, yet the
final `Jdpdn = K_.block<2,2>(0,0) * J_equi * Jdpdn` multiplies by it for
every model.  At a REFRACTIVE camera (explicit index 1, bearing (1/2,0,1)),
with the uninitialized matrix modelled as zero, the returned Jdpdn is (0,0),
while the claimed value — the closed-form index derivative pre-multiplied by
the intrinsic block and nothing else — is (5/8,0). -/
theorem c7_jdpdn_uninitialized_for_non_equirefractive :
    bearingToPixelJdpdn camWater ((1 : ℝ) / 2, (0 : ℝ), (1 : ℝ)) 1 ⟨0, 0, 0, 0⟩ =
      some ((((1 : ℝ) / 2, (0 : ℝ)) : V2), (⟨1, 0, -(1 / 2), 0, 1, 0⟩ : M23),
        (((0 : ℝ), (0 : ℝ)) : V2)) ∧
    m2mulV (kBlock camWater) (jdpdnRefrac ((1 : ℝ) / 2, (0 : ℝ)) 1) =
      ((5 : ℝ) / 8, (0 : ℝ)) ∧
    (((0 : ℝ), (0 : ℝ)) : V2) ≠ (((5 : ℝ) / 8, (0 : ℝ)) : V2) := by
  refine ⟨?_, ?_, ?_⟩
  · norm_num [bearingToPixelJdpdn, camWater, defaultCamera, proj, projJ, pixelOf,
      intrinsicJ, kBlock, distortNJ, distortRefractiveNJ, m2mul, m2mulM23, m2mulV,
      Real.sqrt_one, refrac_ne_equirefrac]
  · norm_num [jdpdnRefrac, kBlock, camWater, defaultCamera, m2mulV, Real.sqrt_one]
  · norm_num [Prod.ext_iff]

/-- C8 (code bug): for the EQUIREFRACTIVE model the explicit-index
`distort(in, out, refrac_index)` dispatch calls the stored-index
`distortEquiRefractive(in, out)`, ignoring the explicit index: with stored
index 1 and explicit index 1.33, its output at (1/10, 0) differs from what
the stored-index path produces when the stored index equals the explicit
one. -/
theorem c8_explicit_index_ignored_for_equirefractive :
    distortN camEquiRefrac ((1 : ℝ) / 10, (0 : ℝ)) (133 / 100) ≠
      distort { camEquiRefrac with refrac_ind_ := 133 / 100 } ((1 : ℝ) / 10, (0 : ℝ)) := by
  have hs0 : (0 : ℝ) < Real.sqrt (992311 / 1000000) := Real.sqrt_pos.mpr (by norm_num)
  have hs1 : Real.sqrt (992311 / 1000000) ≤ 1 := Real.sqrt_le_one.mpr (by norm_num)
  have hq : (133 : ℝ) / 100 ≤ 133 / 100 / Real.sqrt (992311 / 1000000) := by
    rw [le_div_iff₀ hs0]
    nlinarith
  have ha : (133 : ℝ) / 1000 ≤ 1 / 10 * (133 / 100 / Real.sqrt (992311 / 1000000)) := by
    nlinarith
  have ha0 : (0 : ℝ) < 1 / 10 * (133 / 100 / Real.sqrt (992311 / 1000000)) :=
    lt_of_lt_of_le (by norm_num) ha
  have hL : distortN camEquiRefrac ((1 : ℝ) / 10, (0 : ℝ)) (133 / 100)
      = (Real.arctan (1 / 10), 0) := by
    rw [show distortN camEquiRefrac ((1 : ℝ) / 10, (0 : ℝ)) (133 / 100)
        = distortEquiRefractive camEquiRefrac ((1 : ℝ) / 10, (0 : ℝ)) from rfl,
      distortEquiRefractive]
    have h1 : distortRefractive camEquiRefrac ((1 : ℝ) / 10, (0 : ℝ))
        = (((1 : ℝ) / 10, (0 : ℝ)) : V2) := by
      simp only [distortRefractive]
      norm_num [camEquiRefrac, defaultCamera, Real.sqrt_one]
    rw [h1]
    exact distortEquidist_axis camEquiRefrac (1 / 10) (by norm_num) (by norm_num)
      rfl rfl rfl rfl
  have hR : distort { camEquiRefrac with refrac_ind_ := 133 / 100 } ((1 : ℝ) / 10, (0 : ℝ))
      = (Real.arctan (1 / 10 * (133 / 100 / Real.sqrt (992311 / 1000000))), 0) := by
    rw [show distort { camEquiRefrac with refrac_ind_ := 133 / 100 } ((1 : ℝ) / 10, (0 : ℝ))
        = distortEquiRefractive { camEquiRefrac with refrac_ind_ := 133 / 100 }
            ((1 : ℝ) / 10, (0 : ℝ)) from rfl,
      distortEquiRefractive]
    have h1 : distortRefractive { camEquiRefrac with refrac_ind_ := 133 / 100 }
        ((1 : ℝ) / 10, (0 : ℝ))
        = ((1 : ℝ) / 10 * (133 / 100 / Real.sqrt (992311 / 1000000)), (0 : ℝ)) := by
      simp only [distortRefractive]
      norm_num [camEquiRefrac, defaultCamera]
    rw [h1]
    exact distortEquidist_axis _ _ ha0 (by intro hcon; nlinarith) rfl rfl rfl rfl
  rw [hL, hR]
  intro heq
  have h3 : (1 : ℝ) / 10 = 1 / 10 * (133 / 100 / Real.sqrt (992311 / 1000000)) :=
    Real.arctan_injective (congrArg Prod.fst heq)
  rw [← h3] at ha
  norm_num at ha

lemma camDS_out_le (v : V2) : (distortJ camDS v).1.1 ≤ 1 := by
  rw [show distortJ camDS v = distortDoubleSphereJ camDS v from rfl,
    distortDoubleSphereJ_fst]
  simp only [distortDoubleSphere]
  split_ifs with h
  · nlinarith [sq_nonneg v.2]
  · have hk1 : camDS.k1_ = 0 := rfl
    have hk2 : camDS.k2_ = 1 := rfl
    rw [hk1, hk2]
    have e1 : (0 : ℝ) * Real.sqrt (v.1 * v.1 + v.2 * v.2 + 1) + 1 = 1 := by ring
    rw [e1]
    have e2 : v.1 * v.1 + v.2 * v.2 + 1 * (1 : ℝ) = v.1 * v.1 + v.2 * v.2 + 1 := by ring
    rw [e2]
    have e3 : (1 : ℝ) * Real.sqrt (v.1 * v.1 + v.2 * v.2 + 1) + (1 - 1) * 1
        = Real.sqrt (v.1 * v.1 + v.2 * v.2 + 1) := by ring
    rw [e3]
    have hd1 : (1 : ℝ) ≤ Real.sqrt (v.1 * v.1 + v.2 * v.2 + 1) :=
      Real.one_le_sqrt.mpr (by nlinarith [sq_nonneg v.1, sq_nonneg v.2])
    have hd0 : (0 : ℝ) < Real.sqrt (v.1 * v.1 + v.2 * v.2 + 1) :=
      lt_of_lt_of_le one_pos hd1
    have hv : v.1 ≤ Real.sqrt (v.1 * v.1 + v.2 * v.2 + 1) := by
      calc v.1 ≤ |v.1| := le_abs_self v.1
      _ = Real.sqrt (v.1 * v.1) := (Real.sqrt_mul_self_eq_abs v.1).symm
      _ ≤ Real.sqrt (v.1 * v.1 + v.2 * v.2 + 1) :=
          Real.sqrt_le_sqrt (by nlinarith [sq_nonneg v.2])
    rw [mul_one_div, div_le_one hd0]
    exact hv

lemma camDS_resid (v : V2) : gnTol < gnResid camDS ((11 / 10 : ℝ), (0 : ℝ)) v := by
  have hout := camDS_out_le v
  simp only [gnResid, sub2, dot2, gnTol]
  have h1 : (1 : ℝ) / 10 ≤ 11 / 10 - (distortJ camDS v).1.1 := by linarith
  nlinarith [h1, mul_self_nonneg ((0 : ℝ) - (distortJ camDS v).1.2)]

lemma camDS_inverse_none : pixelToBearing camDS ((11 / 10 : ℝ), (0 : ℝ)) = none := by
  have hseed : gnSeed camDS ((11 / 10 : ℝ), (0 : ℝ)) = ((11 / 10 : ℝ), (0 : ℝ)) := by
    norm_num [gnSeed, camDS, defaultCamera]
  simp only [pixelToBearing, hseed, Option.map_eq_none']
  rw [gnLoop_eq_none_iff]
  intro k _
  exact camDS_resid _

/-- C6 (code bug): at the DOUBLE_SPHERE camera with k1=0, k2=1 every
distorted point has first coordinate at most 1, so the pixel (1.1, 0) can
never meet the 1e-10 tolerance and the iterative inverse fails; the
manifold-bearing overload nevertheless writes its output, calling
setFromVector on the uninitialized local `vec` (junk modelled as (0,0,0)),
so it returns the failure flag together with the written non-unit bearing
(0,0,0) — the claim says failure produces no bearing value at all. -/
theorem c6_manifold_overload_writes_on_failure :
    pixelToBearing camDS ((11 / 10 : ℝ), (0 : ℝ)) = none ∧
    pixelToBearingNVE id camDS ((11 / 10 : ℝ), (0 : ℝ)) ((0 : ℝ), (0 : ℝ), (0 : ℝ)) =
      (false, ((0 : ℝ), (0 : ℝ), (0 : ℝ))) ∧
    norm3 ((0 : ℝ), (0 : ℝ), (0 : ℝ)) ≠ 1 := by
  refine ⟨camDS_inverse_none, ?_, ?_⟩
  · simp only [pixelToBearingNVE]
    rw [if_neg (by simp [camDS, defaultCamera])]
    rw [camDS_inverse_none]
    simp [nveSetFromVector, normalize3, norm3, Real.sqrt_zero]
  · simp [norm3, Real.sqrt_zero]

/-- C1 (counterexample): RADTAN with k1 = -1 is a distortion model
configuration on which the round trip fails badly: the bearing (1,0,1) has
positive depth and normalized-plane radius 1, within the valid radius 2,
but the forward model collapses it to the principal point, the iterative
inverse converges (residual 0) to the optical axis (0,0,1), and the chord
angular error to normalize3 (1,0,1) is about 0.765, far above 1e-5. -/
theorem c1_roundtrip_counterexample :
    (0 : ℝ) < (((1 : ℝ), (0 : ℝ), (1 : ℝ)) : V3).2.2 ∧
    Real.sqrt ((proj (((1 : ℝ), (0 : ℝ), (1 : ℝ)) : V3)).1 *
        (proj (((1 : ℝ), (0 : ℝ), (1 : ℝ)) : V3)).1 +
      (proj (((1 : ℝ), (0 : ℝ), (1 : ℝ)) : V3)).2 *
        (proj (((1 : ℝ), (0 : ℝ), (1 : ℝ)) : V3)).2) ≤ camRadtanK1.valid_radius_ ∧
    bearingToPixel camRadtanK1 ((1 : ℝ), (0 : ℝ), (1 : ℝ)) = some ((0 : ℝ), (0 : ℝ)) ∧
    pixelToBearing camRadtanK1 ((0 : ℝ), (0 : ℝ)) = some ((0 : ℝ), (0 : ℝ), (1 : ℝ)) ∧
    1e-5 ≤ angErr3 ((0 : ℝ), (0 : ℝ), (1 : ℝ)) (normalize3 ((1 : ℝ), (0 : ℝ), (1 : ℝ))) := by
  refine ⟨by norm_num, ?_, ?_, ?_, ?_⟩
  · norm_num [proj, camRadtanK1, defaultCamera, Real.sqrt_one]
  · norm_num [bearingToPixel, proj, distort, camRadtanK1, defaultCamera, distortRadtan,
      pixelOf]
  · have hseed : gnSeed camRadtanK1 ((0 : ℝ), (0 : ℝ)) = ((0 : ℝ), (0 : ℝ)) := by
      norm_num [gnSeed, camRadtanK1, defaultCamera]
    have hres : gnResid camRadtanK1 ((0 : ℝ), (0 : ℝ))
        ((gnStep camRadtanK1 ((0 : ℝ), (0 : ℝ)))^[0] ((0 : ℝ), (0 : ℝ))) ≤ gnTol := by
      norm_num [gnResid, distortJ, distortRadtanJ, camRadtanK1, defaultCamera, sub2,
        dot2, gnTol]
    have hstep : gnStep camRadtanK1 ((0 : ℝ), (0 : ℝ)) ((0 : ℝ), (0 : ℝ)) =
        ((0 : ℝ), (0 : ℝ)) := by
      norm_num [gnStep, distortJ, distortRadtanJ, camRadtanK1, defaultCamera, sub2, add2,
        m2mulV, m2inv, m2mul, m2T, m2det]
    simp only [pixelToBearing, hseed]
    rw [gnLoop_eq_some camRadtanK1 ((0 : ℝ), (0 : ℝ)) 100 ((0 : ℝ), (0 : ℝ)) 0
      (by norm_num) (fun j hj => absurd hj (Nat.not_lt_zero j)) hres]
    rw [show (0 : ℕ) + 1 = 1 from rfl, Function.iterate_one, hstep]
    simp only [Option.map_some']
    norm_num [normalize3, norm3, Real.sqrt_one]
  · have h2 : Real.sqrt 2 * Real.sqrt 2 = 2 := Real.mul_self_sqrt (by norm_num)
    have hp : (0 : ℝ) < Real.sqrt 2 := Real.sqrt_pos.mpr (by norm_num)
    have hn : normalize3 ((1 : ℝ), (0 : ℝ), (1 : ℝ)) =
        (1 / Real.sqrt 2, 0, 1 / Real.sqrt 2) := by
      norm_num [normalize3, norm3]
    rw [hn]
    simp only [angErr3, norm3]
    have hx : (1 / Real.sqrt 2) * (1 / Real.sqrt 2) = 1 / 2 := by
      rw [div_mul_div_comm, one_mul, h2]
    refine (Real.le_sqrt' (by norm_num)).mpr ?_
    nlinarith [hx, sq_nonneg (1 - 1 / Real.sqrt 2)]

/-- C1 (amended): for RADTAN with all distortion coefficients zero (pure
pinhole) and nonzero focal entries, the round trip recovers the bearing
exactly — angular error 0 < 1e-5 — for every bearing with positive depth. -/
theorem c1_roundtrip_pinhole (cam : Camera) (b : V3)
    (ht : cam.type_ = ModelType.RADTAN)
    (hk1 : cam.k1_ = 0) (hk2 : cam.k2_ = 0) (hk3 : cam.k3_ = 0)
    (hp1 : cam.p1_ = 0) (hp2 : cam.p2_ = 0)
    (hfx : cam.K00_ ≠ 0) (hfy : cam.K11_ ≠ 0) (hz : 0 < b.2.2) :
    ∃ p v, bearingToPixel cam b = some p ∧ pixelToBearing cam p = some v ∧
      angErr3 v (normalize3 b) < 1e-5 := by
  have hz' : ¬ b.2.2 ≤ 0 := not_le.mpr hz
  have hfwd : bearingToPixel cam b = some (pixelOf cam (proj b)) := by
    simp only [bearingToPixel, if_neg hz']
    rw [show distort cam (proj b) = distortRadtan cam (proj b) by simp [distort, ht],
      distortRadtan_zero cam _ hk1 hk2 hk3 hp1 hp2]
  have hseed : gnSeed cam (pixelOf cam (proj b)) = proj b := by
    simp only [gnSeed, pixelOf]
    refine Prod.ext ?_ ?_
    · field_simp
    · field_simp
  have hdJ : distortJ cam (proj b) = (proj b, m2id) := by
    rw [show distortJ cam (proj b) = distortRadtanJ cam (proj b) by simp [distortJ, ht],
      distortRadtanJ_zero cam _ hk1 hk2 hk3 hp1 hp2]
  have hres : gnResid cam (proj b) ((gnStep cam (proj b))^[0] (proj b)) ≤ gnTol := by
    simp only [Function.iterate_zero, id_eq, gnResid, hdJ, sub2, dot2, gnTol]
    norm_num
  have hstep : gnStep cam (proj b) (proj b) = proj b := by
    simp only [gnStep, hdJ, sub2]
    rw [show ((proj b).1 - (proj b).1, (proj b).2 - (proj b).2) = ((0 : ℝ), (0 : ℝ)) by
      norm_num]
    rw [m2mulV_zero, m2mulV_zero, add2_zero]
  have hinv : pixelToBearing cam (pixelOf cam (proj b)) = some (normalize3 b) := by
    simp only [pixelToBearing, hseed]
    rw [gnLoop_eq_some cam (proj b) 100 (proj b) 0 (by norm_num)
      (fun j hj => absurd hj (Nat.not_lt_zero j)) hres]
    rw [show (0 : ℕ) + 1 = 1 from rfl, Function.iterate_one, hstep]
    simp only [Option.map_some']
    rw [normalize3_proj b hz]
  refine ⟨pixelOf cam (proj b), normalize3 b, hfwd, hinv, ?_⟩
  simp only [angErr3, sub_self]
  norm_num [norm3]

/-- Witness for C1 (amended) at the spec's scenario-A pinhole camera and the
optical-axis bearing (0,0,1). -/
theorem c1_roundtrip_pinhole_witness :
    (camPinholeA.type_ = ModelType.RADTAN ∧ camPinholeA.k1_ = 0 ∧ camPinholeA.k2_ = 0 ∧
      camPinholeA.k3_ = 0 ∧ camPinholeA.p1_ = 0 ∧ camPinholeA.p2_ = 0 ∧
      camPinholeA.K00_ ≠ 0 ∧ camPinholeA.K11_ ≠ 0 ∧
      (0 : ℝ) < (((0 : ℝ), (0 : ℝ), (1 : ℝ)) : V3).2.2) ∧
    (∃ p v, bearingToPixel camPinholeA ((0 : ℝ), (0 : ℝ), (1 : ℝ)) = some p ∧
      pixelToBearing camPinholeA p = some v ∧
      angErr3 v (normalize3 ((0 : ℝ), (0 : ℝ), (1 : ℝ))) < 1e-5) :=
  ⟨⟨rfl, rfl, rfl, rfl, rfl, rfl, by norm_num [camPinholeA, defaultCamera],
    by norm_num [camPinholeA, defaultCamera], by norm_num⟩,
   c1_roundtrip_pinhole camPinholeA ((0 : ℝ), (0 : ℝ), (1 : ℝ)) rfl rfl rfl rfl rfl rfl
     (by norm_num [camPinholeA, defaultCamera]) (by norm_num [camPinholeA, defaultCamera])
     (by norm_num)⟩

end Rovio
